import Mathlib

/-!
Verification of the reconciliation core of `missing.py`: the title
normalizer, the two library indexes, and the layered matching policy of
`match_present`, together with the kind-partitioned reconciliation step of
`main`.  Python strings are modelled as lists of characters, Python dicts
as association lists where the most recent insertion is found first, and
the external similarity scorer (`rapidfuzz.fuzz.WRatio`) as an explicit
function parameter of the fuzzy stage.
-/

namespace PlexMissing

/-- Python strings, modelled as lists of characters. -/
abbrev Str := List Char

/-- Characters of the regular-expression class `\s` (and of `str.strip`),
restricted to its ASCII members: space, tab, newline, carriage return,
vertical tab and form feed. -/
def isSpaceChar (c : Char) : Bool :=
  decide (c ∈ [' ', '\t', '\n', '\r', Char.ofNat 11, Char.ofNat 12])

/-- Characters of the punctuation class `[:!?.,&/()\-]` stripped by
`normalize_title`. -/
def isPunctChar (c : Char) : Bool :=
  decide (c ∈ [':', '!', '?', '.', ',', '&', '/', '(', ')', '-'])

/-- Characters of the apostrophe class `[’'`]` canonicalized by
`normalize_title`: U+2019, the straight quote (39) and the backtick (96). -/
def isAposChar (c : Char) : Bool :=
  decide (c ∈ ['’', Char.ofNat 39, Char.ofNat 96])

/-- Lowercasing of one character by `str.lower`, on the basic-latin range. -/
def lowerChar (c : Char) : Char :=
  if 65 ≤ c.toNat ∧ c.toNat ≤ 90 then Char.ofNat (c.toNat + 32) else c

/-- Canonicalization `re.sub(r"[’'`]", "'", t)` of one character. -/
def aposFix (c : Char) : Char :=
  if isAposChar c then Char.ofNat 39 else c

/-- Replace each maximal run of characters satisfying `p` by the single
character `c`, as `re.sub` with a `+`-quantified class does; the flag
records whether the previous character belonged to the current run. -/
def collapseRunsAux (p : Char → Bool) (c : Char) : List Char → Bool → List Char
  | [], _ => []
  | x :: xs, inRun =>
    if p x then
      if inRun then collapseRunsAux p c xs true
      else c :: collapseRunsAux p c xs true
    else x :: collapseRunsAux p c xs false

/-- Replace each maximal run of characters satisfying `p` by `c`. -/
def collapseRuns (p : Char → Bool) (c : Char) (l : List Char) : List Char :=
  collapseRunsAux p c l false

/-- Model of `str.strip()`: drop leading and trailing whitespace. -/
def stripChars (l : Str) : Str :=
  ((l.dropWhile isSpaceChar).reverse.dropWhile isSpaceChar).reverse

/-- Model of `normalize_title` from `missing.py`: lowercase and strip,
canonicalize apostrophes, replace each punctuation run by a space, collapse
whitespace runs to a single space. -/
def normalize_title (t : Str) : Str :=
  collapseRuns isSpaceChar ' '
    (collapseRuns isPunctChar ' ' ((stripChars (t.map lowerChar)).map aposFix))

/-- A media record: the dict shape produced by the list providers and by
`gather_plex`.  Fields that may be `None` in Python are `Option`s; a `some`
holding the empty string is distinct from `none`, as in the source. -/
structure Record where
  title : Str
  year : Option Str
  imdb_id : Option Str
  tmdb_id : Option Str
  tvdb_id : Option Str
  ratingKey : Option Nat
  kind : Str
deriving DecidableEq, Repr

/-- Python truthiness of an optional string (`None` and `""` are falsy). -/
def truthyS : Option Str → Bool
  | none => false
  | some v => !v.isEmpty

/-- Insertion into a Python dict, modelled on association lists: the new
binding is found before any older binding for the same key. -/
def dinsert {α β : Type} (d : List (α × β)) (k : α) (v : β) : List (α × β) :=
  (k, v) :: d

/-- Lookup in a Python dict modelled as an association list. -/
def dlookup {α β : Type} [DecidableEq α] (d : List (α × β)) (k : α) : Option β :=
  (d.find? (fun p => decide (p.1 = k))).map (fun p => p.2)

/-- The dict key `f"{key}:{val}"` built by `index_by_ids`. -/
def nsKey (ns : Str) (v : Str) : Str := ns ++ ':' :: v

/-- The field name `imdb_id`, as a key prefix. -/
def nsImdb : Str := ['i', 'm', 'd', 'b', '_', 'i', 'd']

/-- The field name `tmdb_id`, as a key prefix. -/
def nsTmdb : Str := ['t', 'm', 'd', 'b', '_', 'i', 'd']

/-- The field name `tvdb_id`, as a key prefix. -/
def nsTvdb : Str := ['t', 'v', 'd', 'b', '_', 'i', 'd']

/-- One iteration of the inner loop of `index_by_ids`:
`val = it.get(key); if val: idx[f"{key}:{val}"] = it`. -/
def insert1 (idx : List (Str × Record)) (ns : Str) :
    Option Str → Record → List (Str × Record)
  | some v, r => if v.isEmpty then idx else dinsert idx (nsKey ns v) r
  | none, _ => idx

/-- The body of `index_by_ids`'s outer loop: insert the record under its
`imdb_id`, `tmdb_id` and `tvdb_id` keys, in that order. -/
def insertIds (idx : List (Str × Record)) (r : Record) : List (Str × Record) :=
  insert1 (insert1 (insert1 idx nsImdb r.imdb_id r) nsTmdb r.tmdb_id r) nsTvdb r.tvdb_id r

/-- Model of `index_by_ids`. -/
def index_by_ids (items : List Record) : List (Str × Record) :=
  items.foldl insertIds []

/-- The year half of an index key: `it.get("year") or ""`. -/
def yearOrEmpty (r : Record) : Str := r.year.getD []

/-- Model of `build_title_year_index`. -/
def build_title_year_index (items : List Record) : List ((Str × Str) × Record) :=
  items.foldl (fun d it => dinsert d (normalize_title it.title, yearOrEmpty it) it) []

/-- Left-to-right best-candidate scan of `rapidfuzz.process.extractOne`,
keeping the earlier candidate on score ties. -/
def extractOneAux (scorer : Str → Str → ℚ) (q : Str) :
    List Str → Str × ℚ → Str × ℚ
  | [], best => best
  | t :: ts, best =>
    if scorer q t > best.2 then extractOneAux scorer q ts (t, scorer q t)
    else extractOneAux scorer q ts best

/-- Model of `process.extractOne(q, choices, scorer)`: `none` on an empty
candidate list, otherwise the best `(choice, score)` pair. -/
def extractOne (scorer : Str → Str → ℚ) (q : Str) : List Str → Option (Str × ℚ)
  | [] => none
  | t :: ts => some (extractOneAux scorer q ts (t, scorer q t))

/-- The year filter of the fuzzy stage:
`(s.get("year") and p.get("year") == s.get("year")) or not s.get("year")`. -/
def fuzzyYearOk (s p : Record) : Bool :=
  (truthyS s.year && decide (p.year = s.year)) || !truthyS s.year

/-- The scan `for p in plex_items:` that recovers the first library record
whose normalized title equals the winning fuzzy candidate and whose year is
compatible with the reference. -/
def fuzzyPick (s : Record) (t : Str) (plex_items : List Record) : Option Record :=
  plex_items.find? (fun p => decide (normalize_title p.title = t) && fuzzyYearOk s p)

/-- The fuzzy stage of `match_present`.  The scorer (`fuzz.WRatio` in the
source) is an external dependency and is passed as a parameter. -/
def fuzzyStage (scorer : Str → Str → ℚ) (s : Record) (plex_items : List Record)
    (plex_titles : List Str) (fuzzy_threshold : ℤ) : Option Record :=
  match extractOne scorer (normalize_title s.title) plex_titles with
  | none => none
  | some m =>
    if m.2 ≥ (fuzzy_threshold : ℚ) then fuzzyPick s m.1 plex_items else none

/-- One namespace probe of the id loop:
`sid = s.get(key); if sid and f"{key}:{sid}" in id_index: found = ...`. -/
def tryNs (id_index : List (Str × Record)) (ns : Str) : Option Str → Option Record
  | some v => if v.isEmpty then none else dlookup id_index (nsKey ns v)
  | none => none

/-- The ID-first loop of `match_present` over the namespaces
`imdb_id, tmdb_id, tvdb_id`, first hit wins. -/
def idStage (s : Record) (id_index : List (Str × Record)) : Option Record :=
  match tryNs id_index nsImdb s.imdb_id with
  | some r => some r
  | none =>
    match tryNs id_index nsTmdb s.tmdb_id with
    | some r => some r
    | none => tryNs id_index nsTvdb s.tvdb_id

/-- The exact title+year stage of `match_present`:
`ty_index.get((normalize_title(s["title"]), s.get("year") or ""))`. -/
def exactStage (s : Record) (ty_index : List ((Str × Str) × Record)) : Option Record :=
  dlookup ty_index (normalize_title s.title, yearOrEmpty s)

/-- The per-record body of `match_present`'s loop: the chain of the three
stages, where the first stage to produce a record wins. -/
def findMatch (scorer : Str → Str → ℚ) (s : Record) (plex_items : List Record)
    (id_index : List (Str × Record)) (ty_index : List ((Str × Str) × Record))
    (plex_titles : List Str) (fuzzy_threshold : ℤ) (prefer_ids : Bool) : Option Record :=
  match (if prefer_ids then idStage s id_index else none : Option Record) with
  | some r => some r
  | none =>
    match exactStage s ty_index with
    | some r => some r
    | none => fuzzyStage scorer s plex_items plex_titles fuzzy_threshold

/-- The classification loop of `match_present`, preserving input order; a
present record carries the matched record's `ratingKey`. -/
def matchLoop (scorer : Str → Str → ℚ) (plex_items : List Record)
    (id_index : List (Str × Record)) (ty_index : List ((Str × Str) × Record))
    (plex_titles : List Str) (fuzzy_threshold : ℤ) (prefer_ids : Bool) :
    List Record → List (Record × Option Nat) × List Record
  | [] => ([], [])
  | s :: rest =>
    let res := matchLoop scorer plex_items id_index ty_index plex_titles fuzzy_threshold
      prefer_ids rest
    match findMatch scorer s plex_items id_index ty_index plex_titles fuzzy_threshold
      prefer_ids with
    | some f => ((s, f.ratingKey) :: res.1, res.2)
    | none => (res.1, s :: res.2)

/-- Model of `match_present`: build the two indexes and the flat normalized
title list, then classify each source record as present or missing. -/
def match_present (scorer : Str → Str → ℚ) (source plex_items : List Record)
    (fuzzy_threshold : ℤ) (prefer_ids : Bool) :
    List (Record × Option Nat) × List Record :=
  matchLoop scorer plex_items (if prefer_ids then index_by_ids plex_items else [])
    (build_title_year_index plex_items)
    (plex_items.map (fun p => normalize_title p.title)) fuzzy_threshold prefer_ids source

/-- The kind string of movie records. -/
def kindMovie : Str := ['m', 'o', 'v', 'i', 'e']

/-- The kind string of show records. -/
def kindShow : Str := ['s', 'h', 'o', 'w']

/-- The per-source reconciliation step of `main`: split the reference items
by kind and run `match_present` for the movie subset against the movie
library partition and for the show subset against the show partition. -/
def split_and_match (scorer : Str → Str → ℚ) (items movies shows : List Record)
    (fuzzy_threshold : ℤ) (prefer_ids : Bool) :
    (List (Record × Option Nat) × List Record) ×
      (List (Record × Option Nat) × List Record) :=
  let src_movies := items.filter (fun x => decide (x.kind = kindMovie))
  let src_shows := items.filter (fun x => decide (x.kind = kindShow))
  (match_present scorer src_movies movies fuzzy_threshold prefer_ids,
   match_present scorer src_shows shows fuzzy_threshold prefer_ids)

/-- No two adjacent characters of the list are both whitespace. -/
def noAdjSpaces : List Char → Prop
  | x :: y :: rest => ¬ (isSpaceChar x = true ∧ isSpaceChar y = true) ∧ noAdjSpaces (y :: rest)
  | _ => True

/-- Test whether an identifier field holding `v?` would insert its record
under the key `k` in the `ns` namespace. -/
def idKeyTest (ns : Str) (k : Str) : Option Str → Bool
  | some v => !v.isEmpty && decide (k = nsKey ns v)
  | none => false

/-- Whether record `r` inserts the key `k` into the identifier index. -/
def hasIdKey (r : Record) (k : Str) : Bool :=
  idKeyTest nsImdb k r.imdb_id || idKeyTest nsTmdb k r.tmdb_id || idKeyTest nsTvdb k r.tvdb_id

/-- Constant scorer, used to instantiate the abstract scorer parameter. -/
def scoreConst (q : ℚ) : Str → Str → ℚ := fun _ _ => q

/-- Sample library record carrying an imdb id. -/
def recL1 : Record := ⟨['a'], none, some ['t', 't', '1'], none, none, some 1, kindMovie⟩

/-- Sample library record carrying a tmdb id. -/
def recL2 : Record := ⟨['b'], none, none, some ['7'], none, some 2, kindMovie⟩

/-- Sample reference record carrying both an imdb and a tmdb id. -/
def recS : Record := ⟨['c'], none, some ['t', 't', '1'], some ['7'], none, none, kindMovie⟩

/-- Sample show-kind library record. -/
def recShow : Record := ⟨['x'], none, none, none, none, some 9, kindShow⟩

/-- Sample reference record with an empty title and no ids. -/
def recEmpty : Record := ⟨[], none, none, none, none, none, kindMovie⟩

/-- Sample library record titled "x". -/
def recX : Record := ⟨['x'], none, none, none, none, some 3, kindMovie⟩

/-- Sample reference record titled "it" with year 2017. -/
def recIt : Record := ⟨['i', 't'], some ['2', '0', '1', '7'], none, none, none, none, kindMovie⟩

/-- Sample library record titled "It" with year 2017. -/
def recItLib : Record :=
  ⟨['I', 't'], some ['2', '0', '1', '7'], none, none, none, some 4, kindMovie⟩

/-- Sample reference record with no identifiers at all. -/
def recNoIds : Record := ⟨['s'], none, none, none, none, none, kindMovie⟩

/-- Sample library record whose imdb id is absent but whose tmdb id is set. -/
def recTmdbOnly : Record := ⟨['r'], none, none, some ['7'], none, some 5, kindMovie⟩

/-! ## Dictionary lemmas -/

theorem dlookup_dinsert {α β : Type} [DecidableEq α] (d : List (α × β)) (k k' : α) (v : β) :
    dlookup (dinsert d k v) k' = if k = k' then some v else dlookup d k' := by
  by_cases h : k = k' <;> simp [dlookup, dinsert, List.find?_cons, h]

theorem mem_of_dlookup {α β : Type} [DecidableEq α] {d : List (α × β)} {k : α} {v : β}
    (h : dlookup d k = some v) : (k, v) ∈ d := by
  unfold dlookup at h
  cases hf : d.find? (fun p => decide (p.1 = k)) with
  | none => rw [hf] at h; simp at h
  | some p =>
    rw [hf] at h
    simp at h
    have hm := List.mem_of_find?_eq_some hf
    have hp := List.find?_some hf
    simp only [decide_eq_true_eq] at hp
    cases p with
    | mk a b => cases hp; cases h; exact hm

/-! ## Index membership lemmas -/

theorem mem_of_mem_insert1 {idx : List (Str × Record)} {ns : Str} {v? : Option Str}
    {r : Record} {p : Str × Record} (h : p ∈ insert1 idx ns v? r) :
    p ∈ idx ∨ p.2 = r := by
  cases v? with
  | none => exact Or.inl h
  | some v =>
    simp only [insert1] at h
    by_cases he : v.isEmpty
    · rw [if_pos he] at h; exact Or.inl h
    · rw [if_neg he] at h
      simp only [dinsert, List.mem_cons] at h
      rcases h with h | h
      · cases h; exact Or.inr rfl
      · exact Or.inl h

theorem mem_of_mem_insertIds {idx : List (Str × Record)} {r : Record} {p : Str × Record}
    (h : p ∈ insertIds idx r) : p ∈ idx ∨ p.2 = r := by
  rcases mem_of_mem_insert1 h with h1 | h1
  · rcases mem_of_mem_insert1 h1 with h2 | h2
    · exact mem_of_mem_insert1 h2
    · exact Or.inr h2
  · exact Or.inr h1

theorem snd_mem_of_mem_index_by_ids_aux {items : List Record} :
    ∀ {idx : List (Str × Record)} {p : Str × Record},
      p ∈ List.foldl insertIds idx items → p ∈ idx ∨ p.2 ∈ items := by
  induction items with
  | nil => intro idx p h; exact Or.inl h
  | cons r rest ih =>
    intro idx p h
    rcases ih (List.foldl_cons .. ▸ h) with h1 | h1
    · rcases mem_of_mem_insertIds h1 with h2 | h2
      · exact Or.inl h2
      · exact Or.inr (h2 ▸ List.mem_cons_self r rest)
    · exact Or.inr (List.mem_cons_of_mem r h1)

theorem snd_mem_of_mem_index_by_ids {items : List Record} {p : Str × Record}
    (h : p ∈ index_by_ids items) : p.2 ∈ items := by
  rcases snd_mem_of_mem_index_by_ids_aux h with h1 | h1
  · simp at h1
  · exact h1

theorem snd_mem_of_mem_ty_index_aux {items : List Record} :
    ∀ {d : List ((Str × Str) × Record)} {p : (Str × Str) × Record},
      p ∈ List.foldl (fun d it => dinsert d (normalize_title it.title, yearOrEmpty it) it)
        d items → p ∈ d ∨ p.2 ∈ items := by
  induction items with
  | nil => intro d p h; exact Or.inl h
  | cons r rest ih =>
    intro d p h
    rcases ih (List.foldl_cons .. ▸ h) with h1 | h1
    · simp only [dinsert, List.mem_cons] at h1
      rcases h1 with h2 | h2
      · exact Or.inr (by rw [h2]; exact List.mem_cons_self r rest)
      · exact Or.inl h2
    · exact Or.inr (List.mem_cons_of_mem r h1)

theorem snd_mem_of_mem_ty_index {items : List Record} {p : (Str × Str) × Record}
    (h : p ∈ build_title_year_index items) : p.2 ∈ items := by
  rcases snd_mem_of_mem_ty_index_aux h with h1 | h1
  · simp at h1
  · exact h1

/-! ## Stage membership lemmas -/

theorem mem_of_tryNs {id_index : List (Str × Record)} {ns : Str} {v? : Option Str}
    {r : Record} (h : tryNs id_index ns v? = some r) :
    ∃ k, (k, r) ∈ id_index := by
  cases v? with
  | none => simp [tryNs] at h
  | some v =>
    by_cases he : v.isEmpty <;> simp [tryNs, he] at h
    exact ⟨nsKey ns v, mem_of_dlookup h⟩

theorem mem_of_idStage {s : Record} {id_index : List (Str × Record)} {r : Record}
    (h : idStage s id_index = some r) : ∃ k, (k, r) ∈ id_index := by
  unfold idStage at h
  cases h1 : tryNs id_index nsImdb s.imdb_id with
  | some x => rw [h1] at h; cases h; exact mem_of_tryNs h1
  | none =>
    rw [h1] at h
    cases h2 : tryNs id_index nsTmdb s.tmdb_id with
    | some x => rw [h2] at h; cases h; exact mem_of_tryNs h2
    | none => rw [h2] at h; exact mem_of_tryNs h

theorem mem_of_fuzzyStage {scorer : Str → Str → ℚ} {s : Record} {plex_items : List Record}
    {plex_titles : List Str} {thr : ℤ} {r : Record}
    (h : fuzzyStage scorer s plex_items plex_titles thr = some r) : r ∈ plex_items := by
  unfold fuzzyStage at h
  split at h
  · simp at h
  · split at h
    · exact List.mem_of_find?_eq_some h
    · simp at h

theorem mem_of_findMatch {scorer : Str → Str → ℚ} {s : Record} {plex_items : List Record}
    {id_index : List (Str × Record)} {ty_index : List ((Str × Str) × Record)}
    {plex_titles : List Str} {thr : ℤ} {prefer_ids : Bool} {r : Record}
    (hid : ∀ p ∈ id_index, Prod.snd p ∈ plex_items)
    (hty : ∀ p ∈ ty_index, Prod.snd p ∈ plex_items)
    (h : findMatch scorer s plex_items id_index ty_index plex_titles thr prefer_ids = some r) :
    r ∈ plex_items := by
  unfold findMatch at h
  split at h
  next x hx =>
    have hxr : x = r := Option.some.inj h
    subst hxr
    cases hpref : prefer_ids with
    | false => rw [hpref] at hx; simp at hx
    | true =>
      rw [hpref] at hx
      simp only [if_true] at hx
      obtain ⟨k, hk⟩ := mem_of_idStage hx
      exact hid (k, x) hk
  next hx =>
    split at h
    next y hy => cases h; exact hty _ (mem_of_dlookup hy)
    next hy => exact mem_of_fuzzyStage h

/-! ## Title+year index key structure -/

theorem ty_index_fst_aux {items : List Record} :
    ∀ {d : List ((Str × Str) × Record)} {p : (Str × Str) × Record},
      p ∈ List.foldl (fun d it => dinsert d (normalize_title it.title, yearOrEmpty it) it)
        d items → p ∈ d ∨ p.1 = (normalize_title p.2.title, yearOrEmpty p.2) := by
  induction items with
  | nil => intro d p h; exact Or.inl h
  | cons r rest ih =>
    intro d p h
    rcases ih (List.foldl_cons .. ▸ h) with h1 | h1
    · simp only [dinsert, List.mem_cons] at h1
      rcases h1 with h2 | h2
      · subst h2; exact Or.inr rfl
      · exact Or.inl h2
    · exact Or.inr h1

/-! ## Claim theorems -/

/-- C7: `normalize_title` identifies "Spider-Man: Homecoming" with
"Spider Man Homecoming" — case, the stripped punctuation set and apostrophe
glyphs do not distinguish titles — but performs no accent folding, so
"Léon: The Professional" and "Leon The Professional" normalize
differently. -/
theorem c7_normalize_equivalence :
    normalize_title "Spider-Man: Homecoming".toList
        = normalize_title "Spider Man Homecoming".toList
    ∧ normalize_title "Léon: The Professional".toList
        ≠ normalize_title "Leon The Professional".toList := by
  exact ⟨by decide, by decide⟩

/-- C1: with `prefer_ids` true the identifier stage tries the namespaces in
the fixed order imdb, tmdb, tvdb and the first hit wins: a reference record
whose imdb id resolves to `L1` in the identifier index matches `L1` even
when its tmdb id resolves to a different record `L2`, and `match_present`
reports the record present with `L1`'s rating key. -/
theorem c1_id_priority (scorer : Str → Str → ℚ) (s : Record) (plex : List Record)
    (thr : ℤ) (i j : Str) (L1 L2 : Record)
    (hi : s.imdb_id = some i) (hine : i.isEmpty = false)
    (hj : s.tmdb_id = some j) (hjne : j.isEmpty = false)
    (h1 : dlookup (index_by_ids plex) (nsKey nsImdb i) = some L1)
    (h2 : dlookup (index_by_ids plex) (nsKey nsTmdb j) = some L2)
    (h12 : L1 ≠ L2) :
    findMatch scorer s plex (index_by_ids plex) (build_title_year_index plex)
        (plex.map (fun p => normalize_title p.title)) thr true = some L1
    ∧ match_present scorer [s] plex thr true = ([(s, L1.ratingKey)], []) := by
  have htry : tryNs (index_by_ids plex) nsImdb s.imdb_id = some L1 := by
    rw [hi]
    simp only [tryNs, hine, Bool.false_eq_true, if_false]
    exact h1
  have hid : idStage s (index_by_ids plex) = some L1 := by
    unfold idStage
    rw [htry]
  have hfm : findMatch scorer s plex (index_by_ids plex) (build_title_year_index plex)
      (plex.map (fun p => normalize_title p.title)) thr true = some L1 := by
    unfold findMatch
    simp only [if_true, hid]
  refine ⟨hfm, ?_⟩
  show matchLoop scorer plex (index_by_ids plex) (build_title_year_index plex)
      (plex.map (fun p => normalize_title p.title)) thr true [s] = ([(s, L1.ratingKey)], [])
  unfold matchLoop
  rw [hfm]
  rfl

/-- Witness for C1 at a concrete input: the reference `recS` carries imdb id
"tt1" (resolving to `recL1`) and tmdb id "7" (resolving to `recL2`), and the
match is `recL1`. -/
theorem c1_id_priority_witness :
    findMatch (scoreConst 0) recS [recL1, recL2] (index_by_ids [recL1, recL2])
        (build_title_year_index [recL1, recL2])
        ([recL1, recL2].map (fun p => normalize_title p.title)) 90 true = some recL1
    ∧ match_present (scoreConst 0) [recS] [recL1, recL2] 90 true
        = ([(recS, recL1.ratingKey)], []) :=
  c1_id_priority (scoreConst 0) recS [recL1, recL2] 90 ['t', 't', '1'] ['7'] recL1 recL2
    rfl rfl rfl rfl (by decide) (by decide) (by decide)

/-- C3: a hit in the exact normalized title+year stage forces the library
record's stored year — with an absent year coerced to the empty string on
both sides, as the source does — to equal the reference's: a reference with
a year matches only on exact year equality, and a reference without a year
matches only a library record whose year is likewise empty or absent; there
is no wildcard over the year in this stage. -/
theorem c3_exact_year (s : Record) (plex : List Record) (L : Record)
    (h : exactStage s (build_title_year_index plex) = some L) :
    L ∈ plex ∧ normalize_title L.title = normalize_title s.title
      ∧ yearOrEmpty L = yearOrEmpty s := by
  have hmem := mem_of_dlookup h
  have hmem' : ((normalize_title s.title, yearOrEmpty s), L) ∈
      List.foldl (fun d it => dinsert d (normalize_title it.title, yearOrEmpty it) it)
        ([] : List ((Str × Str) × Record)) plex := hmem
  rcases ty_index_fst_aux hmem' with h1 | h1
  · simp at h1
  · have h2 := Prod.ext_iff.mp h1
    exact ⟨snd_mem_of_mem_ty_index hmem, h2.1.symm, h2.2.symm⟩

/-- Witness for C3 at a concrete input: the reference "it" (2017) hits the
library record "It" (2017) in the exact stage, and the conclusions hold. -/
theorem c3_exact_year_witness :
    recItLib ∈ [recItLib]
    ∧ normalize_title recItLib.title = normalize_title recIt.title
    ∧ yearOrEmpty recItLib = yearOrEmpty recIt :=
  c3_exact_year recIt [recItLib] recItLib (by decide)

/-- C4: the fuzzy threshold boundary is inclusive: when the best candidate
returned by `extractOne` scores exactly `fuzzy_threshold` the candidate is
accepted (the stage proceeds to the year-constrained scan `fuzzyPick`),
and when the best score is `fuzzy_threshold - 1`, all else equal, the
candidate is rejected and the fuzzy stage produces no match. -/
theorem c4_fuzzy_boundary (scorer1 scorer2 : Str → Str → ℚ) (s : Record)
    (plex : List Record) (titles : List Str) (thr : ℤ) (t1 t2 : Str) (sc1 sc2 : ℚ)
    (h1 : extractOne scorer1 (normalize_title s.title) titles = some (t1, sc1))
    (hsc1 : sc1 = (thr : ℚ))
    (h2 : extractOne scorer2 (normalize_title s.title) titles = some (t2, sc2))
    (hsc2 : sc2 = (thr : ℚ) - 1) :
    fuzzyStage scorer1 s plex titles thr = fuzzyPick s t1 plex
    ∧ fuzzyStage scorer2 s plex titles thr = none := by
  constructor
  · unfold fuzzyStage
    rw [h1]
    simp [hsc1]
  · unfold fuzzyStage
    rw [h2]
    have hlt : ¬ (sc2 ≥ (thr : ℚ)) := by rw [hsc2]; linarith
    simp [hlt]

/-- Witness for C4 at a concrete input: with threshold 90, a constant scorer
of 90 is accepted and a constant scorer of 89 is rejected. -/
theorem c4_fuzzy_boundary_witness :
    fuzzyStage (scoreConst 90) recNoIds [recX] [['x']] 90 = fuzzyPick recNoIds ['x'] [recX]
    ∧ fuzzyStage (scoreConst 89) recNoIds [recX] [['x']] 90 = none :=
  c4_fuzzy_boundary (scoreConst 90) (scoreConst 89) recNoIds [recX] [['x']] 90 ['x'] ['x']
    90 89 rfl (by norm_num) rfl (by norm_num)

/-! ## Fuzzy stage on an empty query -/

theorem extractOneAux_zero (scorer : Str → Str → ℚ) (hsc : ∀ b, scorer [] b = 0) :
    ∀ (l : List Str) (best : Str × ℚ), best.2 = 0 →
      extractOneAux scorer [] l best = best := by
  intro l
  induction l with
  | nil => intro best _; rfl
  | cons t ts ih =>
    intro best hb
    unfold extractOneAux
    rw [hsc t, hb]
    rw [if_neg (by norm_num)]
    exact ih best hb

/-- C5 (amended): with a scorer that, like `fuzz.WRatio`, scores 0 whenever
the query string is empty, a reference whose normalized title is empty
produces no fuzzy match for every threshold ≥ 1.  (The claim's full
threshold range [0,100] fails at threshold 0 — see the counterexample —
because the source has no empty-title short-circuit and `0 ≥ 0` accepts the
zero-scoring best candidate.) -/
theorem c5_empty_title_amended (scorer : Str → Str → ℚ) (s : Record)
    (plex : List Record) (titles : List Str) (thr : ℤ)
    (hsc : ∀ b, scorer [] b = 0) (hempty : normalize_title s.title = [])
    (hthr : 1 ≤ thr) :
    fuzzyStage scorer s plex titles thr = none := by
  unfold fuzzyStage
  rw [hempty]
  cases titles with
  | nil => rfl
  | cons t ts =>
    have he : extractOne scorer [] (t :: ts) = some (t, 0) := by
      show some (extractOneAux scorer [] ts (t, scorer [] t)) = some (t, 0)
      rw [hsc t]
      rw [extractOneAux_zero scorer hsc ts (t, 0) rfl]
    rw [he]
    have hlt : ¬ ((0 : ℚ) ≥ (thr : ℚ)) := by
      have h1 : (1 : ℚ) ≤ (thr : ℚ) := by exact_mod_cast hthr
      linarith
    simp [hlt]

/-- Witness for the amended C5 at a concrete input: threshold 1, empty
reference title, zero-scoring scorer, no fuzzy match. -/
theorem c5_empty_title_witness :
    fuzzyStage (scoreConst 0) recEmpty [recX] [['x']] 1 = none :=
  c5_empty_title_amended (scoreConst 0) recEmpty [recX] [['x']] 1 (fun _ => rfl)
    (by decide) (by decide)

/-- Counterexample to C5 as stated: at `fuzzy_threshold = 0` (allowed by the
claim's range [0,100]) a reference with an empty normalized title does
produce a fuzzy match — the zero-scoring best candidate passes `0 >= 0` and
the year scan returns the first matching library record. -/
theorem c5_counterexample :
    fuzzyStage (scoreConst 0) recEmpty [recX] [['x']] 0 = some recX := by
  decide

/-! ## Last-write-wins structure of the two indexes -/

theorem dlookup_insert1 (idx : List (Str × Record)) (ns : Str) (v? : Option Str)
    (r : Record) (k : Str) :
    dlookup (insert1 idx ns v? r) k = if idKeyTest ns k v? then some r else dlookup idx k := by
  cases v? with
  | none => simp [insert1, idKeyTest]
  | some v =>
    by_cases he : v.isEmpty
    · simp [insert1, idKeyTest, he]
    · have hins : insert1 idx ns (some v) r = dinsert idx (nsKey ns v) r := by
        simp [insert1, he]
      rw [hins, dlookup_dinsert]
      by_cases hk : nsKey ns v = k
      · subst hk
        simp [idKeyTest, he]
      · have hk' : ¬ (k = nsKey ns v) := fun hcc => hk hcc.symm
        simp [idKeyTest, he, hk, hk']

theorem dlookup_insertIds (idx : List (Str × Record)) (r : Record) (k : Str) :
    dlookup (insertIds idx r) k = if hasIdKey r k then some r else dlookup idx k := by
  unfold insertIds
  rw [dlookup_insert1, dlookup_insert1, dlookup_insert1]
  cases h1 : idKeyTest nsImdb k r.imdb_id <;>
    cases h2 : idKeyTest nsTmdb k r.tmdb_id <;>
      cases h3 : idKeyTest nsTvdb k r.tvdb_id <;>
        simp [hasIdKey, h1, h2, h3]

theorem dlookup_foldl_insertIds (k : Str) :
    ∀ (items : List Record) (idx : List (Str × Record)),
      dlookup (List.foldl insertIds idx items) k =
        (items.reverse.find? (fun r => hasIdKey r k)).or (dlookup idx k) := by
  intro items
  induction items with
  | nil => intro idx; simp
  | cons r rest ih =>
    intro idx
    rw [List.foldl_cons, ih, List.reverse_cons, List.find?_append, dlookup_insertIds]
    cases hk : hasIdKey r k <;> simp [List.find?_cons, hk, Option.or_assoc]

theorem dlookup_foldl_ty (a b : Str) :
    ∀ (items : List Record) (d : List ((Str × Str) × Record)),
      dlookup (List.foldl
          (fun d it => dinsert d (normalize_title it.title, yearOrEmpty it) it) d items)
          (a, b) =
        (items.reverse.find? (fun r =>
            decide (normalize_title r.title = a ∧ yearOrEmpty r = b))).or
          (dlookup d (a, b)) := by
  intro items
  induction items with
  | nil => intro d; simp
  | cons r rest ih =>
    intro d
    rw [List.foldl_cons, ih, List.reverse_cons, List.find?_append, dlookup_dinsert]
    by_cases hk : (normalize_title r.title, yearOrEmpty r) = (a, b)
    · have hk1 : normalize_title r.title = a := (Prod.ext_iff.mp hk).1
      have hk2 : yearOrEmpty r = b := (Prod.ext_iff.mp hk).2
      simp [List.find?_cons, hk, hk1, hk2, Option.or_assoc]
    · have h1 : ¬ (normalize_title r.title = a ∧ yearOrEmpty r = b) := by
        intro hc
        exact hk (by rw [Prod.mk.injEq]; exact hc)
      simp [List.find?_cons, hk, h1, Option.or_assoc]

/-- C8: building the two indexes never fails on duplicate keys and is
last-write-wins: a lookup returns exactly the most recently inserted
(latest-positioned) record whose identifier — respectively normalized
title and year-or-empty pair — produces the looked-up key. -/
theorem c8_last_write_wins (items : List Record) (k : Str) (a b : Str) :
    dlookup (index_by_ids items) k = items.reverse.find? (fun r => hasIdKey r k)
    ∧ dlookup (build_title_year_index items) (a, b)
        = items.reverse.find? (fun r =>
            decide (normalize_title r.title = a ∧ yearOrEmpty r = b)) := by
  constructor
  · unfold index_by_ids
    rw [dlookup_foldl_insertIds]
    simp [dlookup]
  · unfold build_title_year_index
    rw [dlookup_foldl_ty]
    simp [dlookup]

/-! ## Namespace key prefixes are pairwise distinct -/

theorem nsKey_imdb_ne_tmdb (v w : Str) : nsKey nsImdb v ≠ nsKey nsTmdb w := by
  intro h
  have h2 : (nsKey nsImdb v).head? = (nsKey nsTmdb w).head? := congrArg List.head? h
  have h3 : some 'i' = some 't' := h2
  exact absurd (Option.some.inj h3) (by decide)

theorem nsKey_imdb_ne_tvdb (v w : Str) : nsKey nsImdb v ≠ nsKey nsTvdb w := by
  intro h
  have h2 : (nsKey nsImdb v).head? = (nsKey nsTvdb w).head? := congrArg List.head? h
  have h3 : some 'i' = some 't' := h2
  exact absurd (Option.some.inj h3) (by decide)

theorem nsKey_tmdb_ne_tvdb (v w : Str) : nsKey nsTmdb v ≠ nsKey nsTvdb w := by
  intro h
  have h2 : (nsKey nsTmdb v).tail.head? = (nsKey nsTvdb w).tail.head? :=
    congrArg (fun l => l.tail.head?) h
  have h3 : some 'm' = some 'v' := h2
  exact absurd (Option.some.inj h3) (by decide)

theorem idKeyTest_falsy (ns k : Str) (o : Option Str) (ho : truthyS o = false) :
    idKeyTest ns k o = false := by
  cases o with
  | none => rfl
  | some w =>
    simp only [truthyS, Bool.not_eq_false'] at ho
    simp [idKeyTest, ho]

theorem idKeyTest_ne (ns k : Str) (o : Option Str) (hne : ∀ w, k ≠ nsKey ns w) :
    idKeyTest ns k o = false := by
  cases o with
  | none => rfl
  | some w => simp [idKeyTest, hne w]

theorem hasIdKey_eq_false_of (r : Record) (k : Str)
    (h1 : idKeyTest nsImdb k r.imdb_id = false)
    (h2 : idKeyTest nsTmdb k r.tmdb_id = false)
    (h3 : idKeyTest nsTvdb k r.tvdb_id = false) : hasIdKey r k = false := by
  unfold hasIdKey
  rw [h1, h2, h3]
  rfl

theorem tryNs_falsy (idx : List (Str × Record)) (ns : Str) (o : Option Str)
    (ho : truthyS o = false) : tryNs idx ns o = none := by
  cases o with
  | none => rfl
  | some w =>
    simp only [truthyS, Bool.not_eq_false'] at ho
    simp [tryNs, ho]

/-- C10: an identifier that is absent (None) or the empty string is treated
as not present on both sides, in each of the three namespaces: a library
record whose imdb (resp. tmdb, tvdb) id is falsy contributes no entry in
that namespace to the identifier index — its insertion leaves every lookup
of a key in that namespace unchanged — a reference record with a falsy id
in a namespace never produces an identifier-stage match in that namespace,
and with all ids falsy `findMatch` behaves exactly as with the identifier
stage disabled, falling through to the title stages. -/
theorem c10_falsy_ids (scorer : Str → Str → ℚ) (r1 r2 r3 s : Record)
    (idx : List (Str × Record)) (ty : List ((Str × Str) × Record))
    (plex : List Record) (titles : List Str) (thr : ℤ) (pids : Bool) (v : Str)
    (hr1 : truthyS r1.imdb_id = false)
    (hr2 : truthyS r2.tmdb_id = false)
    (hr3 : truthyS r3.tvdb_id = false)
    (hs1 : truthyS s.imdb_id = false) (hs2 : truthyS s.tmdb_id = false)
    (hs3 : truthyS s.tvdb_id = false) :
    hasIdKey r1 (nsKey nsImdb v) = false
    ∧ dlookup (insertIds idx r1) (nsKey nsImdb v) = dlookup idx (nsKey nsImdb v)
    ∧ hasIdKey r2 (nsKey nsTmdb v) = false
    ∧ dlookup (insertIds idx r2) (nsKey nsTmdb v) = dlookup idx (nsKey nsTmdb v)
    ∧ hasIdKey r3 (nsKey nsTvdb v) = false
    ∧ dlookup (insertIds idx r3) (nsKey nsTvdb v) = dlookup idx (nsKey nsTvdb v)
    ∧ tryNs idx nsImdb s.imdb_id = none
    ∧ tryNs idx nsTmdb s.tmdb_id = none
    ∧ tryNs idx nsTvdb s.tvdb_id = none
    ∧ idStage s idx = none
    ∧ findMatch scorer s plex idx ty titles thr pids
        = findMatch scorer s plex idx ty titles thr false := by
  have hk1 : hasIdKey r1 (nsKey nsImdb v) = false :=
    hasIdKey_eq_false_of r1 _ (idKeyTest_falsy _ _ _ hr1)
      (idKeyTest_ne _ _ _ (fun w => nsKey_imdb_ne_tmdb v w))
      (idKeyTest_ne _ _ _ (fun w => nsKey_imdb_ne_tvdb v w))
  have hk2 : hasIdKey r2 (nsKey nsTmdb v) = false :=
    hasIdKey_eq_false_of r2 _
      (idKeyTest_ne _ _ _ (fun w => (nsKey_imdb_ne_tmdb w v).symm))
      (idKeyTest_falsy _ _ _ hr2)
      (idKeyTest_ne _ _ _ (fun w => nsKey_tmdb_ne_tvdb v w))
  have hk3 : hasIdKey r3 (nsKey nsTvdb v) = false :=
    hasIdKey_eq_false_of r3 _
      (idKeyTest_ne _ _ _ (fun w => (nsKey_imdb_ne_tvdb w v).symm))
      (idKeyTest_ne _ _ _ (fun w => (nsKey_tmdb_ne_tvdb w v).symm))
      (idKeyTest_falsy _ _ _ hr3)
  have hid : idStage s idx = none := by
    unfold idStage
    rw [tryNs_falsy idx nsImdb _ hs1, tryNs_falsy idx nsTmdb _ hs2,
      tryNs_falsy idx nsTvdb _ hs3]
  refine ⟨hk1, ?_, hk2, ?_, hk3, ?_, tryNs_falsy idx nsImdb _ hs1,
    tryNs_falsy idx nsTmdb _ hs2, tryNs_falsy idx nsTvdb _ hs3, hid, ?_⟩
  · rw [dlookup_insertIds, hk1]
    simp
  · rw [dlookup_insertIds, hk2]
    simp
  · rw [dlookup_insertIds, hk3]
    simp
  · unfold findMatch
    cases pids
    · rfl
    · rw [hid]
      rfl

/-- Witness for C10 at a concrete input: `recTmdbOnly` (imdb id absent),
`recL1` (tmdb and tvdb ids absent) and `recNoIds` (all ids absent) against
a one-record library. -/
theorem c10_falsy_ids_witness :
    hasIdKey recTmdbOnly (nsKey nsImdb ['t', 't', '1']) = false
    ∧ dlookup (insertIds (index_by_ids [recL1]) recTmdbOnly) (nsKey nsImdb ['t', 't', '1'])
        = dlookup (index_by_ids [recL1]) (nsKey nsImdb ['t', 't', '1'])
    ∧ hasIdKey recL1 (nsKey nsTmdb ['t', 't', '1']) = false
    ∧ dlookup (insertIds (index_by_ids [recL1]) recL1) (nsKey nsTmdb ['t', 't', '1'])
        = dlookup (index_by_ids [recL1]) (nsKey nsTmdb ['t', 't', '1'])
    ∧ hasIdKey recL1 (nsKey nsTvdb ['t', 't', '1']) = false
    ∧ dlookup (insertIds (index_by_ids [recL1]) recL1) (nsKey nsTvdb ['t', 't', '1'])
        = dlookup (index_by_ids [recL1]) (nsKey nsTvdb ['t', 't', '1'])
    ∧ tryNs (index_by_ids [recL1]) nsImdb recNoIds.imdb_id = none
    ∧ tryNs (index_by_ids [recL1]) nsTmdb recNoIds.tmdb_id = none
    ∧ tryNs (index_by_ids [recL1]) nsTvdb recNoIds.tvdb_id = none
    ∧ idStage recNoIds (index_by_ids [recL1]) = none
    ∧ findMatch (scoreConst 0) recNoIds [recL1] (index_by_ids [recL1])
        (build_title_year_index [recL1]) [['a']] 90 true
      = findMatch (scoreConst 0) recNoIds [recL1] (index_by_ids [recL1])
        (build_title_year_index [recL1]) [['a']] 90 false :=
  c10_falsy_ids (scoreConst 0) recTmdbOnly recL1 recL1 recNoIds (index_by_ids [recL1])
    (build_title_year_index [recL1]) [recL1] [['a']] 90 true ['t', 't', '1']
    rfl rfl rfl rfl rfl rfl

/-! ## The classification loop partitions its input -/

theorem matchLoop_spec (scorer : Str → Str → ℚ) (plex : List Record)
    (idx : List (Str × Record)) (ty : List ((Str × Str) × Record))
    (titles : List Str) (thr : ℤ) (pids : Bool) :
    ∀ src : List Record,
      (matchLoop scorer plex idx ty titles thr pids src).1.length
          + (matchLoop scorer plex idx ty titles thr pids src).2.length = src.length
      ∧ (matchLoop scorer plex idx ty titles thr pids src).1.map Prod.fst
          = src.filter (fun s => (findMatch scorer s plex idx ty titles thr pids).isSome)
      ∧ (matchLoop scorer plex idx ty titles thr pids src).2
          = src.filter (fun s => !(findMatch scorer s plex idx ty titles thr pids).isSome) := by
  intro src
  induction src with
  | nil => exact ⟨rfl, rfl, rfl⟩
  | cons s rest ih =>
    obtain ⟨ih1, ih2, ih3⟩ := ih
    cases hf : findMatch scorer s plex idx ty titles thr pids with
    | some f =>
      refine ⟨?_, ?_, ?_⟩
      · simp only [matchLoop, hf]
        simp only [List.length_cons]
        omega
      · simp [matchLoop, hf, ih2, List.filter_cons]
      · simp [matchLoop, hf, ih3, List.filter_cons]
    | none =>
      refine ⟨?_, ?_, ?_⟩
      · simp only [matchLoop, hf]
        simp only [List.length_cons]
        omega
      · simp [matchLoop, hf, ih2, List.filter_cons]
      · simp [matchLoop, hf, ih3, List.filter_cons]

/-- C9: `match_present` partitions its input: every source record lands in
exactly one of the two result lists, so the lengths add up to the source
length, and both output lists preserve the relative input order — present
records are exactly the source records on which `findMatch` succeeds, in
order, and missing ones exactly those on which it fails, in order. -/
theorem c9_partition (scorer : Str → Str → ℚ) (source plex : List Record)
    (thr : ℤ) (pids : Bool) :
    (match_present scorer source plex thr pids).1.length
        + (match_present scorer source plex thr pids).2.length = source.length
    ∧ (match_present scorer source plex thr pids).1.map Prod.fst
        = source.filter (fun s => (findMatch scorer s plex
            (if pids then index_by_ids plex else []) (build_title_year_index plex)
            (plex.map (fun p => normalize_title p.title)) thr pids).isSome)
    ∧ (match_present scorer source plex thr pids).2
        = source.filter (fun s => !(findMatch scorer s plex
            (if pids then index_by_ids plex else []) (build_title_year_index plex)
            (plex.map (fun p => normalize_title p.title)) thr pids).isSome) := by
  obtain ⟨h1, h2, h3⟩ := matchLoop_spec scorer plex
    (if pids then index_by_ids plex else []) (build_title_year_index plex)
    (plex.map (fun p => normalize_title p.title)) thr pids source
  exact ⟨h1, h2, h3⟩

theorem findMatch_kind_ne (scorer : Str → Str → ℚ) (lib : List Record) (thr : ℤ)
    (pids : Bool) (s L : Record) (k : Str)
    (hlib : lib.all (fun p => decide (p.kind = k)) = true)
    (hL : ¬ (L.kind = k)) :
    findMatch scorer s lib (if pids then index_by_ids lib else [])
        (build_title_year_index lib) (lib.map (fun p => normalize_title p.title))
        thr pids ≠ some L := by
  intro hc
  have hid : ∀ p ∈ (if pids then index_by_ids lib else [] :
      List (Str × Record)), Prod.snd p ∈ lib := by
    cases pids with
    | false => intro p hp; simp at hp
    | true =>
      intro p hp
      simp only [if_true] at hp
      exact snd_mem_of_mem_index_by_ids hp
  have hty : ∀ p ∈ build_title_year_index lib, Prod.snd p ∈ lib :=
    fun p hp => snd_mem_of_mem_ty_index hp
  have hLmem : L ∈ lib := mem_of_findMatch hid hty hc
  rw [List.all_eq_true] at hlib
  exact hL (of_decide_eq_true (hlib L hLmem))

/-- C2: kind isolation, in both directions.  The reconciliation step of
`main` matches the movie-kind subset of the references only against the
movie library partition and the show-kind subset only against the show
partition; each subset contains only records of its kind, and when the
partitions hold only records of their kind, `findMatch` over the movie
partition can never return a show-kind library record and `findMatch` over
the show partition can never return a movie-kind one — even with identical
title, year and identifiers — because every stage returns a member of the
partition it searches. -/
theorem c2_kind_isolation (scorer : Str → Str → ℚ) (items movies shows : List Record)
    (thr : ℤ) (pids : Bool) (s Ls Lm : Record)
    (hm : movies.all (fun p => decide (p.kind = kindMovie)) = true)
    (hsh : shows.all (fun p => decide (p.kind = kindShow)) = true)
    (hLs : Ls.kind = kindShow) (hLm : Lm.kind = kindMovie) :
    (split_and_match scorer items movies shows thr pids).1
        = match_present scorer (items.filter (fun x => decide (x.kind = kindMovie)))
            movies thr pids
    ∧ (split_and_match scorer items movies shows thr pids).2
        = match_present scorer (items.filter (fun x => decide (x.kind = kindShow)))
            shows thr pids
    ∧ (items.filter (fun x => decide (x.kind = kindMovie))).all
        (fun x => decide (x.kind = kindMovie)) = true
    ∧ (items.filter (fun x => decide (x.kind = kindShow))).all
        (fun x => decide (x.kind = kindShow)) = true
    ∧ findMatch scorer s movies (if pids then index_by_ids movies else [])
        (build_title_year_index movies)
        (movies.map (fun p => normalize_title p.title)) thr pids ≠ some Ls
    ∧ findMatch scorer s shows (if pids then index_by_ids shows else [])
        (build_title_year_index shows)
        (shows.map (fun p => normalize_title p.title)) thr pids ≠ some Lm := by
  refine ⟨rfl, rfl, ?_, ?_, ?_, ?_⟩
  · rw [List.all_eq_true]
    intro x hx
    exact (List.mem_filter.mp hx).2
  · rw [List.all_eq_true]
    intro x hx
    exact (List.mem_filter.mp hx).2
  · exact findMatch_kind_ne scorer movies thr pids s Ls kindMovie hm
      (by rw [hLs]; decide)
  · exact findMatch_kind_ne scorer shows thr pids s Lm kindShow hsh
      (by rw [hLm]; decide)

/-- Witness for C2 at a concrete input: a one-movie library `[recL1]`, a
one-show library `[recShow]`, the reference `recS`, the show record
`recShow` as the forbidden movie-side match and the movie record `recL1`
as the forbidden show-side match. -/
theorem c2_kind_isolation_witness :
    (split_and_match (scoreConst 0) [recS] [recL1] [recShow] 90 true).1
        = match_present (scoreConst 0)
            ([recS].filter (fun x => decide (x.kind = kindMovie))) [recL1] 90 true
    ∧ (split_and_match (scoreConst 0) [recS] [recL1] [recShow] 90 true).2
        = match_present (scoreConst 0)
            ([recS].filter (fun x => decide (x.kind = kindShow))) [recShow] 90 true
    ∧ ([recS].filter (fun x => decide (x.kind = kindMovie))).all
        (fun x => decide (x.kind = kindMovie)) = true
    ∧ ([recS].filter (fun x => decide (x.kind = kindShow))).all
        (fun x => decide (x.kind = kindShow)) = true
    ∧ findMatch (scoreConst 0) recS [recL1] (if true then index_by_ids [recL1] else [])
        (build_title_year_index [recL1])
        ([recL1].map (fun p => normalize_title p.title)) 90 true ≠ some recShow
    ∧ findMatch (scoreConst 0) recS [recShow] (if true then index_by_ids [recShow] else [])
        (build_title_year_index [recShow])
        ([recShow].map (fun p => normalize_title p.title)) 90 true ≠ some recL1 :=
  c2_kind_isolation (scoreConst 0) [recS] [recL1] [recShow] 90 true recS recShow recL1
    (by decide) (by decide) (by decide) (by decide)

/-! ## Character-level facts about the normalizer -/

theorem char_toNat_ofNat_lt (n : Nat) (h : n < 55296) : (Char.ofNat n).toNat = n := by
  have hv : n.isValidChar := Or.inl h
  unfold Char.ofNat
  rw [dif_pos hv]
  rfl

theorem lowerChar_idem (c : Char) : lowerChar (lowerChar c) = lowerChar c := by
  unfold lowerChar
  by_cases h : 65 ≤ c.toNat ∧ c.toNat ≤ 90
  · rw [if_pos h]
    have h1 : (Char.ofNat (c.toNat + 32)).toNat = c.toNat + 32 :=
      char_toNat_ofNat_lt _ (by omega)
    rw [h1, if_neg (by omega)]
  · rw [if_neg h, if_neg h]

theorem aposFix_idem (c : Char) : aposFix (aposFix c) = aposFix c := by
  unfold aposFix
  by_cases h : isAposChar c = true
  · rw [if_pos h, if_pos (by decide)]
  · rw [if_neg h, if_neg h]

theorem lowerChar_aposFix_lowerChar (c : Char) :
    lowerChar (aposFix (lowerChar c)) = aposFix (lowerChar c) := by
  by_cases h : isAposChar (lowerChar c) = true
  · unfold aposFix
    rw [if_pos h]
    decide
  · unfold aposFix
    rw [if_neg h]
    exact lowerChar_idem c

/-! ## Membership through the normalizer's stages -/

theorem mem_collapseRunsAux {p : Char → Bool} {c : Char} {x : Char} :
    ∀ {l : List Char} {b : Bool}, x ∈ collapseRunsAux p c l b →
      x = c ∨ (x ∈ l ∧ p x = false) := by
  intro l
  induction l with
  | nil => intro b h; simp [collapseRunsAux] at h
  | cons y ys ih =>
    intro b h
    cases hy : p y with
    | true =>
      cases b with
      | true =>
        rw [show collapseRunsAux p c (y :: ys) true = collapseRunsAux p c ys true from by
          simp [collapseRunsAux, hy]] at h
        rcases ih h with h1 | ⟨h1, h2⟩
        · exact Or.inl h1
        · exact Or.inr ⟨List.mem_cons_of_mem y h1, h2⟩
      | false =>
        rw [show collapseRunsAux p c (y :: ys) false = c :: collapseRunsAux p c ys true from by
          simp [collapseRunsAux, hy]] at h
        rcases List.mem_cons.mp h with h1 | h1
        · exact Or.inl h1
        · rcases ih h1 with h2 | ⟨h2, h3⟩
          · exact Or.inl h2
          · exact Or.inr ⟨List.mem_cons_of_mem y h2, h3⟩
    | false =>
      rw [show collapseRunsAux p c (y :: ys) b = y :: collapseRunsAux p c ys false from by
        simp [collapseRunsAux, hy]] at h
      rcases List.mem_cons.mp h with h1 | h1
      · subst h1
        exact Or.inr ⟨List.mem_cons_self x ys, hy⟩
      · rcases ih h1 with h2 | ⟨h2, h3⟩
        · exact Or.inl h2
        · exact Or.inr ⟨List.mem_cons_of_mem y h2, h3⟩

theorem mem_stripChars {l : List Char} {x : Char} (h : x ∈ stripChars l) : x ∈ l := by
  unfold stripChars at h
  rw [List.mem_reverse] at h
  have h2 : x ∈ (l.dropWhile isSpaceChar).reverse := (List.dropWhile_sublist _).subset h
  rw [List.mem_reverse] at h2
  exact (List.dropWhile_sublist _).subset h2

theorem map_id_of_mem (f : Char → Char) :
    ∀ (l : List Char), (∀ x ∈ l, f x = x) → l.map f = l := by
  intro l
  induction l with
  | nil => intro _; rfl
  | cons y ys ih =>
    intro h
    simp only [List.map_cons]
    rw [h y (List.mem_cons_self y ys), ih (fun x hx => h x (List.mem_cons_of_mem y hx))]

theorem collapseRunsAux_id_of (p : Char → Bool) (c : Char) :
    ∀ (l : List Char), (∀ x ∈ l, p x = false) → ∀ b, collapseRunsAux p c l b = l := by
  intro l
  induction l with
  | nil => intro _ b; rfl
  | cons y ys ih =>
    intro h b
    have hy : p y = false := h y (List.mem_cons_self y ys)
    rw [show collapseRunsAux p c (y :: ys) b = y :: collapseRunsAux p c ys false from by
      simp [collapseRunsAux, hy]]
    rw [ih (fun x hx => h x (List.mem_cons_of_mem y hx)) false]

theorem collapseRuns_id_of (p : Char → Bool) (c : Char) (l : List Char)
    (h : ∀ x ∈ l, p x = false) : collapseRuns p c l = l :=
  collapseRunsAux_id_of p c l h false

/-! ## Whitespace structure of collapsed strings -/

theorem noAdjSpaces_tail {x : Char} {xs : List Char} (h : noAdjSpaces (x :: xs)) :
    noAdjSpaces xs := by
  cases xs with
  | nil => trivial
  | cons y ys => exact h.2

theorem collapseWS_headFalse :
    ∀ (l : List Char) (x : Char),
      (collapseRunsAux isSpaceChar ' ' l true).head? = some x → isSpaceChar x = false := by
  intro l
  induction l with
  | nil => intro x h; simp [collapseRunsAux] at h
  | cons y ys ih =>
    intro x h
    cases hy : isSpaceChar y with
    | true =>
      rw [show collapseRunsAux isSpaceChar ' ' (y :: ys) true
          = collapseRunsAux isSpaceChar ' ' ys true from by simp [collapseRunsAux, hy]] at h
      exact ih x h
    | false =>
      rw [show collapseRunsAux isSpaceChar ' ' (y :: ys) true
          = y :: collapseRunsAux isSpaceChar ' ' ys false from by
        simp [collapseRunsAux, hy]] at h
      simp only [List.head?_cons, Option.some.injEq] at h
      exact h ▸ hy

theorem noAdj_collapseAux :
    ∀ (l : List Char) (b : Bool), noAdjSpaces (collapseRunsAux isSpaceChar ' ' l b) := by
  intro l
  induction l with
  | nil => intro b; trivial
  | cons y ys ih =>
    intro b
    cases hy : isSpaceChar y with
    | false =>
      rw [show collapseRunsAux isSpaceChar ' ' (y :: ys) b
          = y :: collapseRunsAux isSpaceChar ' ' ys false from by
        simp [collapseRunsAux, hy]]
      cases hout : collapseRunsAux isSpaceChar ' ' ys false with
      | nil => trivial
      | cons z zs =>
        constructor
        · intro hcon
          exact absurd hcon.1 (by simp [hy])
        · exact hout ▸ ih false
    | true =>
      cases b with
      | true =>
        rw [show collapseRunsAux isSpaceChar ' ' (y :: ys) true
            = collapseRunsAux isSpaceChar ' ' ys true from by simp [collapseRunsAux, hy]]
        exact ih true
      | false =>
        rw [show collapseRunsAux isSpaceChar ' ' (y :: ys) false
            = ' ' :: collapseRunsAux isSpaceChar ' ' ys true from by
          simp [collapseRunsAux, hy]]
        cases hout : collapseRunsAux isSpaceChar ' ' ys true with
        | nil => trivial
        | cons z zs =>
          constructor
          · intro hcon
            have hz : isSpaceChar z = false :=
              collapseWS_headFalse ys z (by rw [hout]; rfl)
            exact absurd hcon.2 (by simp [hz])
          · exact hout ▸ ih true

theorem collapseWS_eq_self :
    ∀ (l : List Char), (∀ x ∈ l, isSpaceChar x = true → x = ' ') → noAdjSpaces l →
      (collapseRunsAux isSpaceChar ' ' l false = l ∧
       (isSpaceChar (l.headD 'a') = false → collapseRunsAux isSpaceChar ' ' l true = l)) := by
  intro l
  induction l with
  | nil => intro _ _; exact ⟨rfl, fun _ => rfl⟩
  | cons y ys ih =>
    intro hb hn
    obtain ⟨ih1, ih2⟩ := ih (fun x hx => hb x (List.mem_cons_of_mem y hx)) (noAdjSpaces_tail hn)
    cases hy : isSpaceChar y with
    | false =>
      constructor
      · rw [show collapseRunsAux isSpaceChar ' ' (y :: ys) false
            = y :: collapseRunsAux isSpaceChar ' ' ys false from by
          simp [collapseRunsAux, hy]]
        rw [ih1]
      · intro _
        rw [show collapseRunsAux isSpaceChar ' ' (y :: ys) true
            = y :: collapseRunsAux isSpaceChar ' ' ys false from by
          simp [collapseRunsAux, hy]]
        rw [ih1]
    | true =>
      have hy' : y = ' ' := hb y (List.mem_cons_self y ys) hy
      constructor
      · rw [show collapseRunsAux isSpaceChar ' ' (y :: ys) false
            = ' ' :: collapseRunsAux isSpaceChar ' ' ys true from by
          simp [collapseRunsAux, hy]]
        rw [hy']
        congr 1
        cases ys with
        | nil => rfl
        | cons z zs =>
          have hz : isSpaceChar z = false := by
            by_contra hzc
            rw [Bool.not_eq_false] at hzc
            exact hn.1 ⟨hy, hzc⟩
          exact ih2 hz
      · intro hcon
        rw [show (y :: ys).headD 'a' = y from rfl, hy] at hcon
        exact absurd hcon (by decide)

theorem noAdj_iff_chain :
    ∀ l : List Char, noAdjSpaces l ↔
      List.Chain' (fun a b => ¬ (isSpaceChar a = true ∧ isSpaceChar b = true)) l := by
  intro l
  induction l with
  | nil => simp [noAdjSpaces]
  | cons y ys ih =>
    cases ys with
    | nil => simp [noAdjSpaces]
    | cons z zs =>
      rw [List.chain'_cons]
      constructor
      · intro h; exact ⟨h.1, ih.mp h.2⟩
      · intro h; exact ⟨h.1, ih.mpr h.2⟩

theorem noAdj_reverse {l : List Char} (h : noAdjSpaces l) : noAdjSpaces l.reverse := by
  rw [noAdj_iff_chain] at h ⊢
  rw [List.chain'_reverse]
  exact List.Chain'.imp (fun a b hab hc => hab ⟨hc.2, hc.1⟩) h

theorem noAdj_dropWhile (q : Char → Bool) :
    ∀ (l : List Char), noAdjSpaces l → noAdjSpaces (l.dropWhile q) := by
  intro l
  induction l with
  | nil => intro h; exact h
  | cons y ys ih =>
    intro h
    cases hq : q y with
    | true =>
      rw [show (y :: ys).dropWhile q = ys.dropWhile q from by simp [List.dropWhile_cons, hq]]
      exact ih (noAdjSpaces_tail h)
    | false =>
      rw [show (y :: ys).dropWhile q = y :: ys from by simp [List.dropWhile_cons, hq]]
      exact h

theorem noAdj_stripChars {l : List Char} (h : noAdjSpaces l) : noAdjSpaces (stripChars l) := by
  unfold stripChars
  exact noAdj_reverse (noAdj_dropWhile _ _ (noAdj_reverse (noAdj_dropWhile _ _ h)))

/-! ## The second application of the normalizer only trims -/

theorem normalize_title_chars {t : Str} {x : Char} (hx : x ∈ normalize_title t) :
    lowerChar x = x ∧ aposFix x = x ∧ isPunctChar x = false := by
  have hx1 : x ∈ collapseRunsAux isSpaceChar ' '
      (collapseRuns isPunctChar ' ' ((stripChars (t.map lowerChar)).map aposFix)) false := hx
  rcases mem_collapseRunsAux hx1 with h | ⟨hx2, _⟩
  · subst h; exact ⟨by decide, by decide, by decide⟩
  · have hx2' : x ∈ collapseRunsAux isPunctChar ' '
        ((stripChars (t.map lowerChar)).map aposFix) false := hx2
    rcases mem_collapseRunsAux hx2' with h | ⟨hx3, hpc⟩
    · subst h; exact ⟨by decide, by decide, by decide⟩
    · rcases List.mem_map.mp hx3 with ⟨y, hy, hxy⟩
      rcases List.mem_map.mp (mem_stripChars hy) with ⟨c, _, hyc⟩
      subst hxy
      subst hyc
      exact ⟨lowerChar_aposFix_lowerChar c, aposFix_idem _, hpc⟩

theorem normalize_title_spacesBlank {t : Str} {x : Char} (hx : x ∈ normalize_title t)
    (hs : isSpaceChar x = true) : x = ' ' := by
  have hx1 : x ∈ collapseRunsAux isSpaceChar ' '
      (collapseRuns isPunctChar ' ' ((stripChars (t.map lowerChar)).map aposFix)) false := hx
  rcases mem_collapseRunsAux hx1 with h | ⟨_, hfalse⟩
  · exact h
  · rw [hs] at hfalse
    exact absurd hfalse (by decide)

theorem normalize_title_noAdj (t : Str) : noAdjSpaces (normalize_title t) :=
  noAdj_collapseAux
    (collapseRuns isPunctChar ' ' ((stripChars (t.map lowerChar)).map aposFix)) false

/-- C6 (amended): the normalizer is not idempotent as stated — because the
source strips before replacing punctuation runs with spaces, terminal
punctuation leaves a leading or trailing space that only a second pass
removes.  What does hold for every string: a second application of
`normalize_title` changes the result exactly by trimming it, so idempotence
holds precisely on inputs whose normalized form is already trimmed. -/
theorem c6_normalize_second_pass_trims (t : Str) :
    normalize_title (normalize_title t) = stripChars (normalize_title t) := by
  show collapseRuns isSpaceChar ' '
      (collapseRuns isPunctChar ' '
        ((stripChars ((normalize_title t).map lowerChar)).map aposFix))
    = stripChars (normalize_title t)
  rw [map_id_of_mem lowerChar (normalize_title t)
    (fun x hx => (normalize_title_chars hx).1)]
  rw [map_id_of_mem aposFix (stripChars (normalize_title t))
    (fun x hx => (normalize_title_chars (mem_stripChars hx)).2.1)]
  rw [collapseRuns_id_of isPunctChar ' ' (stripChars (normalize_title t))
    (fun x hx => (normalize_title_chars (mem_stripChars hx)).2.2)]
  exact (collapseWS_eq_self (stripChars (normalize_title t))
    (fun x hx => normalize_title_spacesBlank (mem_stripChars hx))
    (noAdj_stripChars (normalize_title_noAdj t))).1

/-- Counterexample to C6 as stated: "moana!" normalizes to "moana " with a
trailing space (the strip happens before punctuation is replaced by a
space), so a second application of `normalize_title` gives a different,
trimmed result. -/
theorem c6_counterexample :
    normalize_title (normalize_title ['m', 'o', 'a', 'n', 'a', '!'])
      ≠ normalize_title ['m', 'o', 'a', 'n', 'a', '!'] := by
  decide

end PlexMissing
